import Mathlib

/-!
# Verification of the `fs-access-chunk-store` chunk storage engine

Shallow embedding of `src/index.js` (class `WebFsChunkStore`): a chunked
storage engine over the File System Access API, with a single-file-per-chunk
mode and a multi-file mode in which a virtual byte stream backed by several
logical files is sliced into fixed-size chunks.

Modelling conventions:
* Byte buffers are `List Nat`; file contents are byte lists.
* The browser filesystem is explicit state: `chunks` maps a chunk index to
  the content of the per-index scratch file under the `chunks` subdirectory
  (source: `this.chunks`, whose in-memory entries are created exactly when
  the scratch file is written or read), and `fileContents` holds the bytes of
  each declared logical file, indexed in declaration order.
* Callbacks: each operation returns the ordered list of callback invocations
  it performs.  `queueMicrotask`-scheduled callbacks fire even when the
  synchronous remainder of the operation throws; a synchronous `TypeError`
  (e.g. calling `.map` on `undefined`) is the `thrown` flag of the outcome.
  Asynchronous fan-out writes/reads are modelled with their settlement
  semantics: `Promise.all` resolves after every (non-rejecting) promise has
  settled, so its continuation runs after all per-record callbacks.
* Sub-write failures of the underlying filesystem are injected through
  explicit failure oracles (`scratchFail` for the scratch-chunk write,
  `writeFail k` for the `k`-th per-record write of a `put`); reads are
  modelled as always succeeding.
* JS `Math.floor` on non-negative quotients is `Nat` division; the loop bound
  `Math.floor((fileEnd - 1) / chunkLength)`, which can be `-1` in JS, is
  `Int.fdiv`; `Math.ceil(a / b)` on naturals is `(a + b - 1) / b` (proved
  equal to the rational ceiling below).
* `chunkMap[p]` is a `List`: the empty list plays the role of the JS
  `undefined` hole (the constructor only ever stores non-empty lists).
* Numbers are `Nat` where the source only ever holds non-negative integers
  on the executed paths; file descriptors keep their nullable fields as
  `Option` so the constructor's `== null` validation is faithful.
-/

namespace WebFsChunkStore

/-- One entry of `this.chunkMap[p]` (src/index.js:57): bytes `[from, to)` of
chunk `p`'s local buffer correspond to bytes `[offset, offset + (to - from))`
of the logical file `file` (stored here as the file's declaration index). -/
structure OverlapRecord where
  from' : Nat
  to' : Nat
  offset : Nat
  file : Nat
deriving DecidableEq

/-- The record pushed for chunk `p` by the constructor loop body
(src/index.js:47-57).  Only evaluated for `p` with
`firstChunk ≤ p ≤ lastChunk`, where the `Nat` subtractions agree with JS. -/
def recordFor (cl fileIdx fileStart fileEnd p : Nat) : OverlapRecord :=
  let chunkStart := p * cl
  let chunkEnd := chunkStart + cl
  { from' := if fileStart < chunkStart then 0 else fileStart - chunkStart
    to' := if fileEnd > chunkEnd then cl else fileEnd - chunkStart
    offset := if fileStart > chunkStart then 0 else chunkStart - fileStart
    file := fileIdx }

/-- `this.chunkMap` built by the constructor (src/index.js:41-58), fused with
the contiguous-offset inference of src/index.js:26-33: the file with
declaration index `k` starts at virtual-stream offset `t` (the sum of the
previous lengths).  For each file, a record is pushed for every chunk `p`
with `Math.floor(fileStart / cl) ≤ p ≤ Math.floor((fileEnd - 1) / cl)` (the
latter bound computed in `Int`, as in JS, so a file with `fileEnd = 0`
contributes nothing); iterating files outermost preserves declaration order
within each chunk's list. -/
def buildFrom (cl : Nat) : Nat → Nat → List Nat → Nat → List OverlapRecord
  | _, _, [], _ => []
  | k, t, ℓ :: rest, p =>
    (if t / cl ≤ p ∧ (p : Int) ≤ ((t : Int) + ℓ - 1).fdiv cl then
      [recordFor cl k t (t + ℓ) p]
    else [])
      ++ buildFrom cl (k + 1) (t + ℓ) rest p

/-- A file descriptor from `opts.files`, keeping the nullable `path` and
`length` properties checked at src/index.js:24-25. -/
structure FileDecl where
  path : Option String
  length : Option Nat
deriving DecidableEq

/-- The per-file validation of src/index.js:24-25, returning the declared
lengths in order; the first file missing a property aborts construction. -/
def validateFiles : List FileDecl → Except String (List Nat)
  | [] => .ok []
  | f :: rest =>
    match f.path with
    | none => .error "File is missing path property"
    | some _ =>
      match f.length with
      | none => .error "File is missing length property"
      | some ℓ => (validateFiles rest).map (ℓ :: ·)

/-- Constructor options (src/index.js:3, 12-22): `rootDir` records only
whether `opts.rootDir` was supplied, since multi-file mode requires
`opts.files && opts.rootDir`. -/
structure Opts where
  length : Option Nat := none
  rootDir : Bool := false
  files : Option (List FileDecl) := none
deriving DecidableEq

/-- The static part of a constructed store: `files` holds the declared file
lengths when multi-file mode is active (`opts.files && opts.rootDir`),
`length = none` models `Infinity`. -/
structure Store where
  chunkLength : Nat
  length : Option Nat
  files : Option (List Nat)
  chunkMap : Nat → List OverlapRecord

/-- The constructor (src/index.js:3-78).  `Number(opts.length) || Infinity`
maps an absent or zero `length` option to `Infinity` (`none`). -/
def construct (chunkLength : Nat) (opts : Opts) : Except String Store :=
  if chunkLength = 0 then .error "First argument must be a chunk length"
  else
    match opts.files, opts.rootDir with
    | some fds, true =>
      (validateFiles fds).bind fun lens =>
        let L := lens.sum
        if opts.length ≠ none ∧ opts.length ≠ some L then
          .error "total files length is not equal to explicit length option"
        else
          .ok { chunkLength := chunkLength
                length := some L
                files := some lens
                chunkMap := buildFrom chunkLength 0 0 lens }
    | _, _ =>
      .ok { chunkLength := chunkLength
            length := match opts.length with | some 0 => none | x => x
            files := none
            chunkMap := fun _ => [] }

/-- `Math.ceil(L / cl) - 1` (src/index.js:76), computed as the integer
ceiling-division formula; can be `-1` (for `L = 0`), hence `Int`. -/
def Store.lastChunkIndex (s : Store) : Option Int :=
  s.length.map fun L : Nat => ((L : Int) + s.chunkLength - 1) / s.chunkLength - 1

/-- `this.length % this.chunkLength || this.chunkLength` (src/index.js:75). -/
def Store.lastChunkLength (s : Store) : Option Nat :=
  s.length.map fun L =>
    if L % s.chunkLength = 0 then s.chunkLength else L % s.chunkLength

/-- `index === this.lastChunkIndex` (src/index.js:126, 192); always false for
an unbounded store, whose `lastChunkIndex` is `undefined`. -/
def Store.isLastChunk (s : Store) (index : Nat) : Bool :=
  s.lastChunkIndex == some (index : Int)

/-- The `chunkLength` local of `get` (src/index.js:193): the byte length of
chunk `index`.  When `isLastChunk` holds the store's length is finite, so the
`getD` default is never read. -/
def Store.localLen (s : Store) (index : Nat) : Nat :=
  if s.isLastChunk index then (s.lastChunkLength).getD 0 else s.chunkLength

/-- Mutable store state: the `closed` flag, the scratch chunk files (content
of `chunks/<index>`, also standing for the `this.chunks` handle cache), and
the bytes of each declared logical file. -/
structure StoreState where
  closed : Bool
  chunks : Nat → Option (List Nat)
  fileContents : List (List Nat)

/-- Fresh state for a newly constructed store over the given pre-existing
logical-file contents (`closed = false`, src/index.js:10). -/
def initialState (contents : List (List Nat)) : StoreState :=
  { closed := false, chunks := fun _ => none, fileContents := contents }

/-- The errors the store produces, by identity (messages in src/index.js). -/
inductive JsErr where
  | storageClosed
  | chunkLengthMust (n : Nat)
  | lastChunkLengthMust (n : Nat)
  | noFilesMatch
  | indexNotFound (index : Nat)
  | ioError
deriving DecidableEq

/-- The first argument of a callback invocation: `null`, an `Error`, or — as
actually happens at src/index.js:239 — a byte buffer. -/
inductive CbArg1 where
  | nullv
  | err (e : JsErr)
  | bytes (b : List Nat)
deriving DecidableEq

/-- Options object of `get` (src/index.js:183, 195-199). -/
structure GetOpts where
  offset : Option Nat := none
  length : Option Nat := none
deriving DecidableEq

/-- A positioned `FileSystemWritableFileStream.write` (src/index.js:172):
bytes past the end of the file are zero-padded up to `pos`. -/
def writeAt (content : List Nat) (pos : Nat) (data : List Nat) : List Nat :=
  content.take pos ++ List.replicate (pos - content.length) 0
    ++ data ++ content.drop (pos + data.length)

/-- Outcome of a `put`: callback invocations in order, whether the call threw
synchronously, and the post-state. -/
structure PutOutcome where
  events : List CbArg1
  thrown : Bool
  state : StoreState

/-- `put` (src/index.js:120-181).  `scratchFail` injects a failure of the
scratch-chunk write, `writeFail k` a failure of the `k`-th per-record
logical-file write.  In multi-file mode with no overlap records, the queued
`'No files matching the request range'` callback fires but the call then
throws (`targets.map` on `undefined`, src/index.js:162 — there is no `return`
after the `queueMicrotask` at src/index.js:160); the scratch write of the
async IIFE (src/index.js:140-155) still happens.  A failing per-record write
invokes the callback with its error (src/index.js:175) but its promise still
resolves, so `Promise.all(...).then(() => cb(null))` fires afterwards
(src/index.js:179). -/
def Store.put (s : Store) (st : StoreState) (index : Nat) (buf : List Nat)
    (scratchFail : Bool) (writeFail : Nat → Bool) : PutOutcome :=
  if st.closed then ⟨[.err .storageClosed], false, st⟩
  else if s.isLastChunk index ∧ buf.length ≠ (s.lastChunkLength).getD 0 then
    ⟨[.err (.lastChunkLengthMust ((s.lastChunkLength).getD 0))], false, st⟩
  else if ¬s.isLastChunk index ∧ buf.length ≠ s.chunkLength then
    ⟨[.err (.chunkLengthMust s.chunkLength)], false, st⟩
  else
    let st1 : StoreState :=
      if scratchFail then st
      else { st with chunks := fun j => if j = index then some buf else st.chunks j }
    let scratchEvents : List CbArg1 := if scratchFail then [.err .ioError] else []
    match s.files with
    | none => ⟨scratchEvents ++ if scratchFail then [] else [.nullv], false, st1⟩
    | some _ =>
      let targets := s.chunkMap index
      if targets.isEmpty then ⟨.err .noFilesMatch :: scratchEvents, true, st1⟩
      else
        let errEvents : List CbArg1 :=
          (targets.enum.filter fun kr => writeFail kr.1).map fun _ => .err .ioError
        let newContents :=
          targets.enum.foldl
            (fun fc kr =>
              if writeFail kr.1 then fc
              else
                fc.set kr.2.file
                  (writeAt (fc.getD kr.2.file []) kr.2.offset
                    ((buf.drop kr.2.from').take (kr.2.to' - kr.2.from'))))
            st1.fileContents
        ⟨scratchEvents ++ errEvents ++ [.nullv], false,
          { st1 with fileContents := newContents }⟩

/-- Outcome of a `get`: callback invocations (first argument, second
argument) in order, and whether the call threw synchronously.  `get` mutates
no modelled state (it only caches file handles). -/
structure GetOutcome where
  events : List (CbArg1 × Option (List Nat))
  thrown : Bool
deriving DecidableEq

/-- The clipping and read of one surviving overlap record
(src/index.js:241-261): `to` is clipped to `rangeTo`, and raising `from` to
`rangeFrom` advances the file offset by the same amount; then
`to - from` bytes are read at the adjusted offset. -/
def readClip (content : Nat → List Nat) (rangeFrom rangeTo : Nat)
    (r : OverlapRecord) : List Nat :=
  let to1 := if r.to' > rangeTo then rangeTo else r.to'
  let from1 := if r.from' < rangeFrom then rangeFrom else r.from'
  let offset1 :=
    if r.from' < rangeFrom then r.offset + (rangeFrom - r.from') else r.offset
  ((content r.file).drop offset1).take (to1 - from1)

/-- The single-file read path of `get` (src/index.js:201-225), reading the
per-index scratch/chunk file: slice to the requested range unless it is the
full chunk, and report a tagged not-found error on an empty result.  Reading
a never-written index reads the just-created empty file (`getD []`). -/
def Store.getSingle (s : Store) (st : StoreState) (index : Nat)
    (opts? : Option GetOpts) : GetOutcome :=
  let chunkLen := s.localLen index
  let opts := opts?.getD {}
  let rangeFrom := opts.offset.getD 0
  let len := match opts.length with
    | some n => if n = 0 then chunkLen - rangeFrom else n
    | none => chunkLen - rangeFrom
  let content := (st.chunks index).getD []
  let buf :=
    if rangeFrom ≠ 0 ∨ len ≠ chunkLen then (content.drop rangeFrom).take len
    else content
  if buf.length = 0 then ⟨[(.err (.indexNotFound index), none)], false⟩
  else ⟨[(.nullv, some buf)], false⟩

/-- `get` (src/index.js:183-273).  The single-file path is taken when the
store is not in multi-file mode or the in-memory chunk table already has an
entry for `index`.  On the multi-file path: with no overlap records at all
the queued `'No files matching'` callback fires and the call throws
(`targets.filter` on `undefined`, src/index.js:232 — no `return` at
src/index.js:229); with records but no survivors the error callback is
queued and — lacking a `return` at src/index.js:236 — execution continues.
When `rangeFrom === rangeTo` the callback receives `new Uint8Array(0)` as
its *first* argument (src/index.js:239).  Otherwise all surviving records
are read via `readClip` and concatenated in record order (the
`values.length === 1` shortcut of src/index.js:264 also equals the
concatenation). -/
def Store.get (s : Store) (st : StoreState) (index : Nat)
    (opts? : Option GetOpts) : GetOutcome :=
  if st.closed then ⟨[(.err .storageClosed, none)], false⟩
  else
    let chunkLen := s.localLen index
    let opts := opts?.getD {}
    let rangeFrom := opts.offset.getD 0
    let rangeTo := match opts.length with
      | some n => if n = 0 then chunkLen else rangeFrom + n
      | none => chunkLen
    if s.files.isNone ∨ (st.chunks index).isSome then s.getSingle st index opts?
    else
      let targets := s.chunkMap index
      if targets.isEmpty then ⟨[(.err .noFilesMatch, none)], true⟩
      else
        let survivors :=
          targets.filter fun r => rangeFrom < r.to' ∧ r.from' < rangeTo
        let preEvents : List (CbArg1 × Option (List Nat)) :=
          if survivors.isEmpty then [(.err .noFilesMatch, none)] else []
        if rangeFrom = rangeTo then ⟨preEvents ++ [(.bytes [], none)], false⟩
        else
          let values := survivors.map
            (readClip (fun j => st.fileContents.getD j []) rangeFrom rangeTo)
          ⟨preEvents ++ [(.nullv, some values.flatten)], false⟩

/-- Outcome of `close`/`destroy`: callback invocations and post-state. -/
structure CloseOutcome where
  events : List CbArg1
  state : StoreState

/-- `close` (src/index.js:275-290) with its `cleanup` (src/index.js:292-304):
sets `closed`, clears the chunk table and removes the scratch `chunks`
subtree; logical files are left untouched.  (The also-cleared `chunkMap` and
`directoryMap` are unobservable afterwards, since every later operation
fails on the `closed` guard.) -/
def Store.close (_s : Store) (st : StoreState) : CloseOutcome :=
  if st.closed then ⟨[.err .storageClosed], st⟩
  else ⟨[.nullv],
    { closed := true, chunks := fun _ => none, fileContents := st.fileContents }⟩

/-- `destroy` (src/index.js:306-329): guarded like `close`, then performs
`close` and recursively removes the store's named storage root (all logical
files included). -/
def Store.destroy (s : Store) (st : StoreState) : CloseOutcome :=
  if st.closed then ⟨[.err .storageClosed], st⟩
  else
    let c := s.close st
    ⟨c.events, { c.state with fileContents := [] }⟩


/-! ## Concrete fixture stores (used by witnesses and counterexamples) -/

/-- Single-file-mode store, `chunkLength = 10`, `length = 25` (Scenario B). -/
def storeB : Store :=
  { chunkLength := 10, length := some 25, files := none, chunkMap := fun _ => [] }

/-- Multi-file store over two declared files of length 15, `chunkLength = 10`
(Scenario C layout). -/
def storeCC : Store :=
  { chunkLength := 10, length := some 30, files := some [15, 15],
    chunkMap := buildFrom 10 0 0 [15, 15] }

/-- State of `storeCC` with both logical files present and zero-filled. -/
def stateCC : StoreState :=
  initialState [List.replicate 15 0, List.replicate 15 0]

/-- Multi-file store over one declared file of length 10, `chunkLength = 10`:
chunk index 1 has no overlap records. -/
def storeOne : Store :=
  { chunkLength := 10, length := some 10, files := some [10],
    chunkMap := buildFrom 10 0 0 [10] }

/-- Multi-file store over files of lengths 10 and 5, `chunkLength = 10`. -/
def storeTF : Store :=
  { chunkLength := 10, length := some 15, files := some [10, 5],
    chunkMap := buildFrom 10 0 0 [10, 5] }

/-- State of `storeTF` with both logical files present. -/
def stateTF : StoreState :=
  initialState [List.replicate 10 1, List.replicate 5 2]

/-- The bytes of the virtual stream contributed by files `k, k+1, ...`
(one list entry per remaining declared file, file `j` contributing
`content j`); used to state what multi-file reads return. -/
def joinFrom (content : Nat → List Nat) : Nat → List Nat → List Nat
  | _, [] => []
  | k, _ :: rest => content k ++ joinFrom content (k + 1) rest

/-- Bytes `[lo, hi)` of a byte sequence positioned at absolute offset `t` of
the virtual stream. -/
def sliceAbs (S : List Nat) (t lo hi : Nat) : List Nat :=
  (S.drop (lo - t)).take (hi - max lo t)

/-! ## Arithmetic helper lemmas -/

/-- `Math.floor(t / cl) ≤ p` unfolded to a multiplicative bound. -/
theorem div_le_iff_lt_mul {cl t p : Nat} (hcl : 0 < cl) :
    t / cl ≤ p ↔ t < (p + 1) * cl := by
  constructor
  · intro h
    have := Nat.div_lt_iff_lt_mul hcl (x := t) (y := p + 1)
    omega
  · intro h
    have := (Nat.div_lt_iff_lt_mul hcl (x := t) (y := p + 1)).mpr h
    omega

/-- `p ≤ Math.floor((n - 1) / cl)` (JS semantics, via `Int.fdiv`) unfolded to
a multiplicative bound. -/
theorem le_fdiv_pred_iff {cl n p : Nat} (hcl : 0 < cl) :
    (p : Int) ≤ ((n : Int) - 1).fdiv cl ↔ p * cl < n := by
  rcases Nat.eq_zero_or_pos n with h0 | hpos
  · subst h0
    constructor
    · intro h2
      exfalso
      have he : ((0 : Nat) : Int) - 1 = -1 := by omega
      rw [he] at h2
      have hm1 : (-1 : Int).fdiv cl = -1 := by
        rcases cl with _ | m
        · omega
        · show (Int.negSucc 0).fdiv (Int.ofNat (m + 1)) = -1
          show Int.negSucc (0 / (m + 1)) = -1
          rw [Nat.zero_div]
          rfl
      omega
    · intro h
      omega
  · have he : ((n : Int) - 1) = ((n - 1 : Nat) : Int) := by omega
    rw [he, ← Int.ofNat_fdiv]
    have hc : (p : Int) ≤ ((n - 1) / cl : Nat) ↔ p ≤ (n - 1) / cl := by
      exact_mod_cast Iff.rfl
    rw [hc, Nat.le_div_iff_mul_le hcl]
    omega

/-- The `buildFrom` guard holds iff the file `[t, t + ℓ)` meets the chunk
window `[p * cl, (p + 1) * cl)`. -/
theorem buildFrom_guard_iff {cl t ℓ p : Nat} (hcl : 0 < cl) :
    (t / cl ≤ p ∧ (p : Int) ≤ ((t : Int) + ℓ - 1).fdiv cl)
      ↔ (t < (p + 1) * cl ∧ p * cl < t + ℓ) := by
  have he : ((t : Int) + ℓ - 1) = (((t + ℓ : Nat) : Int) - 1) := by push_cast; ring
  rw [he, div_le_iff_lt_mul hcl, le_fdiv_pred_iff hcl]

/-- The integer ceiling-division formula equals the rational ceiling. -/
theorem ceil_div_rat (L cl : Nat) (hcl : 0 < cl) :
    ⌈(L : ℚ) / (cl : ℚ)⌉ = ((L + cl - 1) / cl : Nat) := by
  have hcl' : (0 : ℚ) < cl := by exact_mod_cast hcl
  set q := (L + cl - 1) / cl with hq
  have h1 : q * cl ≤ L + cl - 1 := Nat.div_mul_le_self _ _
  have h2 : L + cl - 1 < (q + 1) * cl := by
    rw [← Nat.div_lt_iff_lt_mul hcl]
    omega
  rw [add_mul, one_mul] at h2
  have hLe : L ≤ q * cl := by omega
  have hLt : q * cl < L + cl := by omega
  rw [Int.ceil_eq_iff]
  constructor
  · rw [lt_div_iff₀ hcl']
    have h : (q * cl : ℚ) < L + cl := by exact_mod_cast hLt
    push_cast
    nlinarith [h]
  · rw [div_le_iff₀ hcl']
    have h : (L : ℚ) ≤ q * cl := by exact_mod_cast hLe
    push_cast
    nlinarith [h]

/-- Splitting an absolute-position slice at a file boundary. -/
theorem sliceAbs_append (f J : List Nat) (t lo hi : Nat) (hlohi : lo ≤ hi) :
    sliceAbs (f ++ J) t lo hi
      = (f.drop (lo - t)).take (min hi (t + f.length) - max lo t)
        ++ sliceAbs J (t + f.length) lo hi := by
  have hdl : (f.drop (lo - t)).length = f.length - (lo - t) := List.length_drop _ _
  unfold sliceAbs
  rw [List.drop_append_eq_append_drop, List.take_append_eq_append_take]
  have h1 : ((lo - t) - f.length) = lo - (t + f.length) := by omega
  have h2 : (hi - max lo t) - (f.drop (lo - t)).length
      = hi - max lo (t + f.length) := by
    rw [hdl]; omega
  rw [h1, h2]
  congr 1
  rw [List.take_eq_take, hdl]
  omega

/-- `index === lastChunkIndex` in terms of the `Nat` ceiling division. -/
theorem isLastChunk_iff (s : Store) (L : Nat) (hL : s.length = some L)
    (hcl : 0 < s.chunkLength) (i : Nat) :
    s.isLastChunk i = true
      ↔ (i : Int) = ((L + s.chunkLength - 1 : Nat) / s.chunkLength : Nat) - 1 := by
  have hcast : ((L : Int) + s.chunkLength - 1) / s.chunkLength
      = (((L + s.chunkLength - 1 : Nat) / s.chunkLength : Nat) : Int) := by
    have he : ((L : Int) + s.chunkLength - 1)
        = ((L + s.chunkLength - 1 : Nat) : Int) := by
      omega
    rw [he]
    norm_cast
  rw [Store.isLastChunk, Store.lastChunkIndex, hL]
  simp only [Option.map_some']
  rw [beq_iff_eq, Option.some_inj, hcast]
  omega

/-- The chunk-local length is positive on any store with positive
`chunkLength`. -/
theorem localLen_pos (s : Store) (hcl : 0 < s.chunkLength) (i : Nat) :
    0 < s.localLen i := by
  rw [Store.localLen]
  split
  · rename_i hlast
    rw [Store.isLastChunk] at hlast
    cases hL : s.length with
    | none => rw [Store.lastChunkIndex, hL] at hlast; simp at hlast
    | some L =>
      rw [Store.lastChunkLength, hL]
      simp only [Option.map_some', Option.getD_some]
      split
      · exact hcl
      · have := Nat.mod_lt L hcl
        omega
  · exact hcl

/-- Facts about the local length of a valid chunk index of a finite store:
positivity, the bound by `chunkLength`, and that the chunk window
`[i*cl, i*cl + localLen)` lies inside `[0, L)`. -/
theorem localLen_facts (s : Store) (L : Nat) (hL : s.length = some L)
    (hcl : 0 < s.chunkLength) (i : Nat)
    (hvalid : i + 1 ≤ (L + s.chunkLength - 1) / s.chunkLength) :
    0 < s.localLen i ∧ s.localLen i ≤ s.chunkLength
      ∧ i * s.chunkLength + s.localLen i ≤ L := by
  obtain ⟨q, hqdef⟩ : ∃ q, q = (L + s.chunkLength - 1) / s.chunkLength := ⟨_, rfl⟩
  rw [← hqdef] at hvalid
  have hdm := Nat.div_add_mod L s.chunkLength
  have hmod := Nat.mod_lt L hcl
  have hq1 : q * s.chunkLength ≤ L + s.chunkLength - 1 := by
    rw [hqdef]
    exact Nat.div_mul_le_self _ _
  have hq2 : L + s.chunkLength - 1 < q * s.chunkLength + s.chunkLength := by
    have h := (Nat.div_lt_iff_lt_mul hcl
        (x := L + s.chunkLength - 1)
        (y := (L + s.chunkLength - 1) / s.chunkLength + 1)).mp (by omega)
    rw [add_mul, one_mul] at h
    rw [hqdef]
    exact h
  have hlast := isLastChunk_iff s L hL hcl i
  rw [← hqdef] at hlast
  rw [Store.localLen]
  split
  · rename_i h
    have hiq : i + 1 = q := by
      have := hlast.mp h
      omega
    have hx : i * s.chunkLength + s.chunkLength = q * s.chunkLength := by
      have hy : (i + 1) * s.chunkLength = q * s.chunkLength := by rw [hiq]
      rw [add_mul, one_mul] at hy
      exact hy
    rw [Store.lastChunkLength, hL]
    simp only [Option.map_some', Option.getD_some]
    split
    · rename_i hz
      -- L % cl = 0: the ceiling division is exact, q * cl = L
      have hqm : q = L / s.chunkLength := by
        rw [hqdef, show L + s.chunkLength - 1
            = s.chunkLength * (L / s.chunkLength) + (s.chunkLength - 1) by omega]
        rw [Nat.mul_add_div hcl]
        have h0 : (s.chunkLength - 1) / s.chunkLength = 0 :=
          Nat.div_eq_of_lt (by omega)
        omega
      have hql : q * s.chunkLength = L := by
        rw [hqm, Nat.mul_comm]
        omega
      omega
    · rename_i hz
      -- L % cl ≠ 0: q = L / cl + 1
      have hqm : q = L / s.chunkLength + 1 := by
        rw [hqdef, show L + s.chunkLength - 1
            = s.chunkLength * (L / s.chunkLength)
              + ((L % s.chunkLength - 1) + s.chunkLength) by omega]
        rw [Nat.mul_add_div hcl, Nat.add_div_right _ hcl]
        have h0 : (L % s.chunkLength - 1) / s.chunkLength = 0 :=
          Nat.div_eq_of_lt (by omega)
        omega
      have hql : q * s.chunkLength
          = s.chunkLength * (L / s.chunkLength) + s.chunkLength := by
        rw [hqm, add_mul, one_mul, Nat.mul_comm]
      omega
  · rename_i h
    have hne : ¬((i : Int) = (q : Int) - 1) := by
      intro hc
      exact h (hlast.mpr hc)
    have hilt : i + 2 ≤ q := by omega
    have hmul2 : (i + 2) * s.chunkLength ≤ q * s.chunkLength :=
      Nat.mul_le_mul_right _ hilt
    rw [show (i + 2) * s.chunkLength
        = i * s.chunkLength + 2 * s.chunkLength by ring] at hmul2
    omega

/-- Length of the virtual-stream suffix. -/
theorem joinFrom_length (content : Nat → List Nat) :
    ∀ (ls : List Nat) (k : Nat),
      (∀ j, j < ls.length → (content (k + j)).length = ls.getD j 0) →
      (joinFrom content k ls).length = ls.sum := by
  intro ls
  induction ls with
  | nil => intro k _; simp [joinFrom]
  | cons ℓ rest ih =>
    intro k hlen
    have h0 : (content k).length = ℓ := by
      have := hlen 0 (by simp)
      simpa using this
    have hr : ∀ j, j < rest.length → (content (k + 1 + j)).length = rest.getD j 0 := by
      intro j hj
      have := hlen (j + 1) (by simp only [List.length_cons]; omega)
      simpa [Nat.add_comm, Nat.add_assoc, Nat.add_left_comm] using this
    simp [joinFrom, h0, ih (k + 1) hr]

/-! ## Claim theorems -/

/-- C3: for every declared logical file with virtual-stream range
`[fileStart, fileEnd)` and every chunk index `p` in
`[floor(fileStart/chunkLength), floor((fileEnd-1)/chunkLength)]`, the
constructor appends to chunk `p`'s overlap list (in file-declaration order) a
record with `from = max(0, fileStart - p*chunkLength)`,
`to = min(chunkLength, fileEnd - p*chunkLength)` and
`fileOffset = max(0, p*chunkLength - fileStart)`; in particular, for two
contiguous files of length 15 with `chunkLength = 10`, chunk 1 has exactly
two records: file A covering local `[0,5)` at file offset 10 and file B
covering local `[5,10)` at file offset 0. -/
theorem constructor_overlap_records :
    (∀ cl fileIdx fileStart fileEnd p : Nat, 0 < cl →
        fileStart / cl ≤ p → (p : Int) ≤ ((fileEnd : Int) - 1).fdiv cl →
        recordFor cl fileIdx fileStart fileEnd p
          = { from' := (max 0 ((fileStart : Int) - (p : Int) * cl)).toNat
              to' := (min (cl : Int) ((fileEnd : Int) - (p : Int) * cl)).toNat
              offset := (max 0 ((p : Int) * cl - (fileStart : Int))).toNat
              file := fileIdx })
    ∧ (construct 10
          { rootDir := true
            files := some [⟨some "a", some 15⟩, ⟨some "b", some 15⟩] }).map
        (fun s => s.chunkMap 1)
        = .ok [⟨0, 5, 10, 0⟩, ⟨5, 10, 0, 1⟩] := by
  constructor
  · intro cl fileIdx fileStart fileEnd p hcl h1 h2
    rw [div_le_iff_lt_mul hcl] at h1
    rw [le_fdiv_pred_iff hcl] at h2
    rw [add_mul, one_mul] at h1
    have hpc : ((p * cl : Nat) : Int) = (p : Int) * cl := by push_cast; ring
    simp only [recordFor, OverlapRecord.mk.injEq]
    rw [← hpc]
    refine ⟨?_, ?_, ?_, trivial⟩ <;> split_ifs <;> omega
  · rfl

/-- Witness for C3: file A (`fileStart = 0`, `fileEnd = 15`) at chunk 1 with
`chunkLength = 10`. -/
theorem constructor_overlap_records_witness :
    recordFor 10 0 0 15 1
      = { from' := (max 0 ((0 : Int) - (1 : Int) * 10)).toNat
          to' := (min (10 : Int) ((15 : Int) - (1 : Int) * 10)).toNat
          offset := (max 0 ((1 : Int) * 10 - (0 : Int))).toNat
          file := 0 } := by
  have h := constructor_overlap_records.1 10 0 0 15 1 (by decide) (by decide)
      (by decide)
  simpa using h

/-- C4: a store with `chunkLength = c > 0` and finite length `L` computes
`lastChunkIndex = ceil(L/c) - 1` and `lastChunkLength = L mod c` (or `c` when
that remainder is zero); `put` on an open store fails via callback, before
any I/O (the state is unchanged), with a length-mismatch error naming the
expected length whenever the buffer length is wrong for the chunk, and `put`
on a closed store fails via callback with a closed-store error. -/
theorem lastChunk_arithmetic_put_validation
    (s : Store) (L : Nat) (hL : s.length = some L) (hcl : 0 < s.chunkLength) :
    s.lastChunkIndex = some (⌈(L : ℚ) / (s.chunkLength : ℚ)⌉ - 1)
    ∧ s.lastChunkLength
        = some (if L % s.chunkLength = 0 then s.chunkLength else L % s.chunkLength)
    ∧ (∀ st index buf sf wf, st.closed = false →
        s.isLastChunk index = true → buf.length ≠ (s.lastChunkLength).getD 0 →
        s.put st index buf sf wf
          = ⟨[.err (.lastChunkLengthMust ((s.lastChunkLength).getD 0))], false, st⟩)
    ∧ (∀ st index buf sf wf, st.closed = false →
        s.isLastChunk index = false → buf.length ≠ s.chunkLength →
        s.put st index buf sf wf
          = ⟨[.err (.chunkLengthMust s.chunkLength)], false, st⟩)
    ∧ (∀ st index buf sf wf, st.closed = true →
        s.put st index buf sf wf = ⟨[.err .storageClosed], false, st⟩) := by
  have hA : ((L : Int) + s.chunkLength - 1) / s.chunkLength
      = ⌈(L : ℚ) / (s.chunkLength : ℚ)⌉ := by
    rw [ceil_div_rat L s.chunkLength hcl]
    have he : ((L : Int) + s.chunkLength - 1)
        = (((L + s.chunkLength - 1 : Nat)) : Int) := by omega
    rw [he]
    norm_cast
  refine ⟨?_, ?_, ?_, ?_, ?_⟩
  · simp [Store.lastChunkIndex, hL, hA]
  · simp [Store.lastChunkLength, hL]
  · intro st index buf sf wf hopen hlast hlen
    simp [Store.put, hopen, hlast, hlen]
  · intro st index buf sf wf hopen hlast hlen
    simp [Store.put, hopen, hlast, hlen]
  · intro st index buf sf wf hclosed
    simp [Store.put, hclosed]

/-- Witness for C4: `storeB` (`chunkLength = 10`, `length = 25`,
`lastChunkLength = 5`); `put(2, 3 bytes)` fails with the last-chunk
length-mismatch error and an unchanged state. -/
theorem lastChunk_arithmetic_put_validation_witness :
    storeB.put (initialState []) 2 [1, 2, 3] false (fun _ => false)
      = ⟨[.err (.lastChunkLengthMust ((storeB.lastChunkLength).getD 0))], false,
          initialState []⟩ :=
  (lastChunk_arithmetic_put_validation storeB 25 rfl (by decide)).2.2.1
    (initialState []) 2 [1, 2, 3] false (fun _ => false) rfl (by decide) (by decide)

/-- Counterexample for C8: a files list containing a zero-length descriptor
is accepted — the constructor returns a store instead of failing.  The
`== null` checks at src/index.js:24-25 do not reject a zero length. -/
theorem constructor_zero_length_counterexample :
    construct 10
        { rootDir := true
          files := some [⟨some "a", some 0⟩, ⟨some "b", some 10⟩] }
      = .ok { chunkLength := 10, length := some 10, files := some [0, 10],
              chunkMap := buildFrom 10 0 0 [0, 10] } := rfl

/-- Every file descriptor whose `path` and `length` are present passes
validation, regardless of the length's value. -/
theorem validateFiles_ok (fds : List FileDecl)
    (hall : ∀ f ∈ fds, f.path ≠ none ∧ f.length ≠ none) :
    ∃ lens : List Nat, validateFiles fds = .ok lens := by
  induction fds with
  | nil => exact ⟨[], rfl⟩
  | cons f rest ih =>
    obtain ⟨hp, hl⟩ := hall f (by simp)
    obtain ⟨lens, hrest⟩ := ih fun g hg => hall g (by simp [hg])
    cases hpv : f.path with
    | none => exact absurd hpv hp
    | some pv =>
      cases hlv : f.length with
      | none => exact absurd hlv hl
      | some lv =>
        exact ⟨lv :: lens, by simp [validateFiles, hpv, hlv, hrest, Except.map]⟩

/-- C8 (amended): the multi-file constructor fails only on a file descriptor
missing `path` or `length` (or on an explicit-length mismatch); in
particular a list whose descriptors all carry `path` and `length` — even
with zero lengths — builds a store. -/
theorem constructor_accepts_zero_length_files
    (cl : Nat) (hcl : cl ≠ 0) (fds : List FileDecl)
    (hall : ∀ f ∈ fds, f.path ≠ none ∧ f.length ≠ none) :
    ∃ lens : List Nat, validateFiles fds = .ok lens
      ∧ construct cl { rootDir := true, files := some fds }
          = .ok { chunkLength := cl, length := some lens.sum,
                  files := some lens, chunkMap := buildFrom cl 0 0 lens } := by
  obtain ⟨lens, hv⟩ := validateFiles_ok fds hall
  exact ⟨lens, hv, by simp [construct, hcl, hv, Except.bind]⟩

/-- Witness for the amended C8: the store over declared lengths `[0, 10]` is
built. -/
theorem constructor_accepts_zero_length_files_witness :
    ∃ lens : List Nat,
      validateFiles [⟨some "a", some 0⟩, (⟨some "b", some 10⟩ : FileDecl)]
          = .ok lens
      ∧ construct 17
            { rootDir := true
              files := some [⟨some "a", some 0⟩, ⟨some "b", some 10⟩] }
          = .ok { chunkLength := 17, length := some lens.sum,
                  files := some lens, chunkMap := buildFrom 17 0 0 lens } :=
  constructor_accepts_zero_length_files 17 (by decide) _ (by decide)

/-- C9: the `closed` flag starts `false` and transitions to `true` exactly
once, via the first `close()` or `destroy()`; afterwards every `put`, `get`,
`close` and `destroy` fails via callback with the closed-store error, issues
no further I/O and repeats no teardown side effect (the state is returned
unchanged) — in particular a second `close` yields the closed-store error. -/
theorem closed_flag_lifecycle :
    (∀ contents, (initialState contents).closed = false)
    ∧ (∀ (s : Store) (st : StoreState), st.closed = false →
        (s.close st).events = [.nullv] ∧ (s.close st).state.closed = true)
    ∧ (∀ (s : Store) (st : StoreState), st.closed = false →
        (s.destroy st).events = [.nullv] ∧ (s.destroy st).state.closed = true)
    ∧ (∀ (s : Store) (st : StoreState), st.closed = true →
        s.close st = ⟨[.err .storageClosed], st⟩)
    ∧ (∀ (s : Store) (st : StoreState), st.closed = true →
        s.destroy st = ⟨[.err .storageClosed], st⟩)
    ∧ (∀ (s : Store) (st : StoreState) i buf sf wf, st.closed = true →
        s.put st i buf sf wf = ⟨[.err .storageClosed], false, st⟩)
    ∧ (∀ (s : Store) (st : StoreState) i opts, st.closed = true →
        s.get st i opts = ⟨[(.err .storageClosed, none)], false⟩) := by
  refine ⟨fun _ => rfl, ?_, ?_, ?_, ?_, ?_, ?_⟩
  · intro s st h
    simp [Store.close, h]
  · intro s st h
    simp [Store.destroy, Store.close, h]
  · intro s st h
    simp [Store.close, h]
  · intro s st h
    simp [Store.destroy, h]
  · intro s st i buf sf wf h
    simp [Store.put, h]
  · intro s st i opts h
    simp [Store.get, h]

/-- Witness for C9: closing the fresh `storeB` succeeds and marks it closed;
a second `close` fails with the closed-store error and changes nothing. -/
theorem closed_flag_lifecycle_witness :
    ((storeB.close (initialState [])).events = [.nullv]
      ∧ (storeB.close (initialState [])).state.closed = true)
    ∧ storeB.close (storeB.close (initialState [])).state
        = ⟨[.err .storageClosed], (storeB.close (initialState [])).state⟩ :=
  ⟨closed_flag_lifecycle.2.1 storeB (initialState []) rfl,
    closed_flag_lifecycle.2.2.2.1 storeB (storeB.close (initialState [])).state
      (closed_flag_lifecycle.2.1 storeB (initialState []) rfl).2⟩

/-- C6 (code bug): in multi-file mode, when the overlap table has no records
for the request, `put` queues the `'No files matching the request range'`
error callback but then throws a `TypeError` (no `return` after the
`queueMicrotask` at src/index.js:160, so `targets.map` runs on `undefined`
at src/index.js:162), and the already-started async IIFE still writes the
scratch chunk file; `get` likewise queues the error and throws
(src/index.js:229 and 232).  This contradicts the claim that the operation
fails only via the callback, performs no file I/O, and does not throw.
Failing input: the store over one declared file of length 10 with
`chunkLength = 10`, `put(1, 10 bytes)` or `get(1)`. -/
theorem no_targets_throws_code_bug :
    (storeOne.put (initialState [List.replicate 10 0]) 1 (List.replicate 10 7)
        false fun _ => false).events = [.err .noFilesMatch]
    ∧ (storeOne.put (initialState [List.replicate 10 0]) 1 (List.replicate 10 7)
        false fun _ => false).thrown = true
    ∧ (storeOne.put (initialState [List.replicate 10 0]) 1 (List.replicate 10 7)
        false fun _ => false).state.chunks 1 = some (List.replicate 10 7)
    ∧ (storeOne.get (initialState [List.replicate 10 0]) 1 none).thrown = true
    ∧ (storeOne.get (initialState [List.replicate 10 0]) 1 none).events
        = [(.err .noFilesMatch, none)] :=
  ⟨by decide, by decide, by decide, by decide, by decide⟩

/-- C7 (code bug): in multi-file mode, a `get` whose computed chunk-local
range satisfies `rangeFrom == rangeTo` performs no file I/O and does not
throw, but the empty buffer is passed as the callback's *first* (error)
argument — src/index.js:239 reads `cb(new Uint8Array(0))`, not
`cb(null, new Uint8Array(0))` — and, no record having survived the range
filter, a `'No files matching the request range'` error callback was
already queued (no `return` at src/index.js:236) and fires first.  The
claimed "empty result with null error" is never delivered.  Failing input:
the store over declared lengths `[10, 5]` with `chunkLength = 10`,
`get(0, {offset: 10})`. -/
theorem empty_range_get_code_bug :
    (storeTF.get stateTF 0 (some { offset := some 10 })).events
      = [(.err .noFilesMatch, none), (.bytes [], none)]
    ∧ (storeTF.get stateTF 0 (some { offset := some 10 })).thrown = false :=
  ⟨by decide, by decide⟩

/-- A chunk whose window meets the declared virtual stream has at least one
overlap record. -/
theorem buildFrom_ne_nil (cl : Nat) (hcl : 0 < cl) :
    ∀ (ls : List Nat) (k t p : Nat), t ≤ p * cl → p * cl < t + ls.sum →
      buildFrom cl k t ls p ≠ [] := by
  intro ls
  induction ls with
  | nil =>
    intro k t p h1 h2
    exfalso
    simp only [List.sum_nil] at h2
    omega
  | cons ℓ rest ih =>
    intro k t p h1 h2
    by_cases hc : p * cl < t + ℓ
    · have hw : t < (p + 1) * cl := by
        have hmul : (p + 1) * cl = p * cl + cl := by ring
        omega
      simp only [buildFrom, if_pos ((buildFrom_guard_iff hcl).mpr ⟨hw, hc⟩)]
      simp
    · have hg : ¬(t / cl ≤ p ∧ (p : Int) ≤ ((t : Int) + ℓ - 1).fdiv cl) := by
        rw [buildFrom_guard_iff hcl]
        tauto
      simp only [buildFrom, if_neg hg, List.nil_append]
      refine ih (k + 1) (t + ℓ) p (by omega) ?_
      simp only [List.sum_cons] at h2
      omega

/-- Characterization of a `put` that passes validation (open store, correct
buffer length), with no scratch-write failure. -/
theorem put_ok (s : Store) (st : StoreState) (index : Nat) (buf : List Nat)
    (wf : Nat → Bool) (hopen : st.closed = false)
    (hlen1 : s.isLastChunk index = true → buf.length = (s.lastChunkLength).getD 0)
    (hlen2 : s.isLastChunk index = false → buf.length = s.chunkLength) :
    (s.files = none →
      s.put st index buf false wf
        = ⟨[.nullv], false,
            { st with chunks := fun j => if j = index then some buf else st.chunks j }⟩)
    ∧ (∀ lens, s.files = some lens → s.chunkMap index ≠ [] →
        (s.put st index buf false wf).events
            = ((((s.chunkMap index).enum.filter fun kr => wf kr.1).map
                fun _ => CbArg1.err .ioError) ++ [.nullv])
          ∧ (s.put st index buf false wf).thrown = false
          ∧ (s.put st index buf false wf).state.closed = false
          ∧ (s.put st index buf false wf).state.chunks
              = fun j => if j = index then some buf else st.chunks j) := by
  constructor
  · intro hf
    cases hl : s.isLastChunk index
    · have hb := hlen2 hl
      simp [Store.put, hopen, hl, hb, hf]
    · have hb := hlen1 hl
      simp [Store.put, hopen, hl, hb, hf]
  · intro lens hf htargets
    cases hM : s.chunkMap index with
    | nil => exact absurd hM htargets
    | cons r rs =>
      cases hl : s.isLastChunk index
      · have hb := hlen2 hl
        refine ⟨?_, ?_, ?_, ?_⟩ <;>
          simp [Store.put, hopen, hl, hb, hf, hM]
      · have hb := hlen1 hl
        refine ⟨?_, ?_, ?_, ?_⟩ <;>
          simp [Store.put, hopen, hl, hb, hf, hM]

/-- C10: in multi-file mode, a validated `put(index, buf)` truncate-writes
the entire buffer to the per-index scratch file under the `chunks`
subdirectory, and any subsequent `get(index, ...)` on the same store
instance, its chunk table now holding that index, is served entirely by the
single-file read path from that scratch file: changing the logical files'
contents does not affect its outcome, and it equals the single-file-mode
read (`getSingle`), so the overlap records are never consulted. -/
theorem multi_put_scratch_then_get_single_path
    (s : Store) (st : StoreState) (index : Nat) (buf : List Nat)
    (wf : Nat → Bool) (lens : List Nat)
    (hopen : st.closed = false) (hf : s.files = some lens)
    (hlen1 : s.isLastChunk index = true → buf.length = (s.lastChunkLength).getD 0)
    (hlen2 : s.isLastChunk index = false → buf.length = s.chunkLength)
    (htargets : s.chunkMap index ≠ []) :
    (s.put st index buf false wf).state.chunks index = some buf
    ∧ (∀ opts contents',
        s.get { (s.put st index buf false wf).state with fileContents := contents' }
            index opts
          = s.get (s.put st index buf false wf).state index opts)
    ∧ (∀ opts,
        s.get (s.put st index buf false wf).state index opts
          = s.getSingle (s.put st index buf false wf).state index opts) := by
  obtain ⟨hev, hth, hcl', hchunks⟩ :=
    (put_ok s st index buf wf hopen hlen1 hlen2).2 lens hf htargets
  have hidx : (s.put st index buf false wf).state.chunks index = some buf := by
    rw [hchunks]
    simp
  refine ⟨hidx, ?_, ?_⟩
  · intro opts contents'
    simp [Store.get, Store.getSingle, hcl', hidx]
  · intro opts
    simp [Store.get, hcl', hidx]

/-- Witness for C10 at `storeCC` (files `[15, 15]`, `chunkLength = 10`),
writing chunk 1. -/
theorem multi_put_scratch_then_get_single_path_witness :
    (storeCC.put stateCC 1 (List.replicate 10 9) false fun _ => false).state.chunks 1
        = some (List.replicate 10 9)
    ∧ (∀ opts contents',
        storeCC.get
            { (storeCC.put stateCC 1 (List.replicate 10 9) false fun _ => false).state
                with fileContents := contents' } 1 opts
          = storeCC.get
              (storeCC.put stateCC 1 (List.replicate 10 9) false fun _ => false).state
              1 opts)
    ∧ (∀ opts,
        storeCC.get
            (storeCC.put stateCC 1 (List.replicate 10 9) false fun _ => false).state
            1 opts
          = storeCC.getSingle
              (storeCC.put stateCC 1 (List.replicate 10 9) false fun _ => false).state
              1 opts) :=
  multi_put_scratch_then_get_single_path storeCC stateCC 1 (List.replicate 10 9)
    (fun _ => false) [15, 15] rfl rfl (by decide) (by decide) (by decide)

/-- C1: on every open store (single-file or multi-file mode) and every valid
chunk index with a buffer of the correct length for that chunk,
`put(i, buf)` succeeds (single success callback, nothing thrown) and a
following `get(i)` with default options delivers a byte buffer identical to
`buf`. -/
theorem put_get_roundtrip
    (s : Store) (st : StoreState) (index : Nat) (buf : List Nat)
    (hopen : st.closed = false) (hcl : 0 < s.chunkLength)
    (hbuf : buf.length = s.localLen index)
    (hmode : s.files = none
      ∨ ∃ lens L, s.files = some lens ∧ s.length = some L ∧ lens.sum = L
          ∧ s.chunkMap = buildFrom s.chunkLength 0 0 lens
          ∧ index + 1 ≤ (L + s.chunkLength - 1) / s.chunkLength) :
    (s.put st index buf false fun _ => false).events = [.nullv]
    ∧ (s.put st index buf false fun _ => false).thrown = false
    ∧ (s.get (s.put st index buf false fun _ => false).state index none).events
        = [(.nullv, some buf)] := by
  have hlen1 : s.isLastChunk index = true →
      buf.length = (s.lastChunkLength).getD 0 := by
    intro h
    simpa [Store.localLen, h] using hbuf
  have hlen2 : s.isLastChunk index = false → buf.length = s.chunkLength := by
    intro h
    simpa [Store.localLen, h] using hbuf
  have hpos : 0 < s.localLen index := localLen_pos s hcl index
  have hne : buf.length ≠ 0 := by omega
  rcases hmode with hf | ⟨lens, L, hf, hL, hsum, hmap, hvalid⟩
  · have hput := (put_ok s st index buf (fun _ => false) hopen hlen1 hlen2).1 hf
    rw [hput]
    refine ⟨rfl, rfl, ?_⟩
    simp [Store.get, Store.getSingle, hopen, hf, hne]
  · have htargets : s.chunkMap index ≠ [] := by
      obtain ⟨hp, hle, hwin⟩ := localLen_facts s L hL hcl index hvalid
      rw [hmap]
      refine buildFrom_ne_nil s.chunkLength hcl lens 0 0 index (Nat.zero_le _) ?_
      omega
    obtain ⟨hev, hth, hcl', hchunks⟩ :=
      (put_ok s st index buf (fun _ => false) hopen hlen1 hlen2).2 lens hf htargets
    have hidx : (s.put st index buf false fun _ => false).state.chunks index
        = some buf := by
      rw [hchunks]
      simp
    refine ⟨?_, hth, ?_⟩
    · rw [hev]
      simp
    · simp [Store.get, Store.getSingle, hcl', hidx, hne]

/-- Witness for C1: single-file `storeB`, `put(2, 5 bytes)` then `get(2)`. -/
theorem put_get_roundtrip_witness :
    (storeB.put (initialState []) 2 [1, 2, 3, 4, 5] false fun _ => false).events
        = [.nullv]
    ∧ (storeB.put (initialState []) 2 [1, 2, 3, 4, 5] false fun _ => false).thrown
        = false
    ∧ (storeB.get
          (storeB.put (initialState []) 2 [1, 2, 3, 4, 5] false fun _ => false).state
          2 none).events
        = [(.nullv, some [1, 2, 3, 4, 5])] :=
  put_get_roundtrip storeB (initialState []) 2 [1, 2, 3, 4, 5] rfl (by decide)
    (by decide) (Or.inl rfl)

/-- Counterexample for C5: on the store over files `[15, 15]`
(`chunkLength = 10`), a `put` of chunk 1 whose first per-file sub-write
fails invokes the callback with the error *and then additionally with
success* (`null`): the failing sub-write's rejection is caught and the
promise resolves, so `Promise.all(...).then(() => cb(null))` still fires
(src/index.js:174-179). -/
theorem put_subwrite_failure_counterexample :
    (storeCC.put stateCC 1 (List.replicate 10 9) false fun k => k == 0).events
        = [.err .ioError, .nullv]
    ∧ CbArg1.nullv
        ∈ (storeCC.put stateCC 1 (List.replicate 10 9) false fun k => k == 0).events :=
  ⟨by decide, by decide⟩

/-- C5 (amended): in multi-file mode, for every validated `put` on an open
store with overlap records, the success callback (`null`) fires exactly
once and as the last invocation — only after every per-file sub-write has
settled; each failing sub-write fires the callback with its error before
that, in settlement order.  However, because a failing sub-write's promise
resolves rather than rejects, the callback fires with success *in addition
to* the error(s) whenever any sub-write fails. -/
theorem put_multi_callback_discipline
    (s : Store) (st : StoreState) (index : Nat) (buf : List Nat)
    (wf : Nat → Bool) (lens : List Nat)
    (hopen : st.closed = false) (hf : s.files = some lens)
    (hlen1 : s.isLastChunk index = true → buf.length = (s.lastChunkLength).getD 0)
    (hlen2 : s.isLastChunk index = false → buf.length = s.chunkLength)
    (htargets : s.chunkMap index ≠ []) :
    (s.put st index buf false wf).events
        = ((((s.chunkMap index).enum.filter fun kr => wf kr.1).map
            fun _ => CbArg1.err .ioError) ++ [.nullv])
    ∧ (s.put st index buf false wf).events.getLast? = some .nullv
    ∧ (s.put st index buf false wf).events.count .nullv = 1
    ∧ ((∃ kr, kr ∈ (s.chunkMap index).enum ∧ wf kr.1 = true) →
        CbArg1.err .ioError ∈ (s.put st index buf false wf).events
          ∧ CbArg1.nullv ∈ (s.put st index buf false wf).events) := by
  obtain ⟨hev, hth, hcl', hchunks⟩ :=
    (put_ok s st index buf wf hopen hlen1 hlen2).2 lens hf htargets
  refine ⟨hev, ?_, ?_, ?_⟩
  · rw [hev]
    exact List.getLast?_concat _
  · rw [hev]
    have h1 : ((((s.chunkMap index).enum.filter fun kr => wf kr.1).map
        fun _ => CbArg1.err .ioError)).count .nullv = 0 := by
      rw [List.count_eq_zero]
      intro h
      rcases List.mem_map.mp h with ⟨x, _, hx⟩
      exact CbArg1.noConfusion hx
    rw [List.count_append, h1]
    rfl
  · rintro ⟨kr, hmem, hwf⟩
    constructor
    · rw [hev]
      refine List.mem_append_left _ (List.mem_map.mpr ?_)
      exact ⟨kr, List.mem_filter.mpr ⟨hmem, hwf⟩, rfl⟩
    · rw [hev]
      simp

/-- Witness for the amended C5: concrete failing sub-write on `storeCC`. -/
theorem put_multi_callback_discipline_witness :
    CbArg1.err .ioError
        ∈ (storeCC.put stateCC 1 (List.replicate 10 9) false fun k => k == 0).events
    ∧ CbArg1.nullv
        ∈ (storeCC.put stateCC 1 (List.replicate 10 9) false fun k => k == 0).events :=
  (put_multi_callback_discipline storeCC stateCC 1 (List.replicate 10 9)
      (fun k => k == 0) [15, 15] rfl rfl (by decide) (by decide) (by decide)).2.2.2
    ⟨(0, ⟨0, 5, 10, 0⟩), by decide, by decide⟩

/-- The clipped read of a surviving overlap record equals the bytes of its
file lying inside the absolute query range `[p*cl + a, p*cl + b)`. -/
theorem readClip_recordFor (content : Nat → List Nat) {cl p a b k t ℓ : Nat}
    (hab : a < b) (hb : b ≤ cl)
    (hov1 : t < p * cl + cl) (hov2 : p * cl < t + ℓ)
    (hs1 : a < (recordFor cl k t (t + ℓ) p).to')
    (hs2 : (recordFor cl k t (t + ℓ) p).from' < b) :
    readClip content a b (recordFor cl k t (t + ℓ) p)
      = ((content k).drop ((p * cl + a) - t)).take
          (min (p * cl + b) (t + ℓ) - max (p * cl + a) t) := by
  simp only [recordFor] at hs1 hs2
  simp only [readClip, recordFor]
  congr 1
  · split_ifs at hs2 ⊢ <;> omega
  · congr 1
    split_ifs at hs1 hs2 ⊢ <;> omega

/-- Main multi-file read lemma: filtering chunk `p`'s overlap records to the
query `[a, b)` (chunk-local), clipping each surviving record and
concatenating the per-record reads in record order yields exactly the
absolute bytes `[p*cl + a, p*cl + b)` of the virtual stream formed by the
file contents (each file having its declared length). -/
theorem buildFrom_filter_read (cl p a b : Nat) (hcl : 0 < cl) (hab : a < b)
    (hb : b ≤ cl) (content : Nat → List Nat) :
    ∀ (ls : List Nat) (k t : Nat),
      (∀ j, j < ls.length → (content (k + j)).length = ls.getD j 0) →
      (((buildFrom cl k t ls p).filter
          fun r => a < r.to' ∧ r.from' < b).map
        (readClip content a b)).flatten
        = sliceAbs (joinFrom content k ls) t (p * cl + a) (p * cl + b) := by
  intro ls
  induction ls with
  | nil =>
    intro k t _
    simp [buildFrom, joinFrom, sliceAbs]
  | cons ℓ rest ih =>
    intro k t hlen
    have hcontent : (content k).length = ℓ := by
      have := hlen 0 (by simp)
      simpa using this
    have hrest : ∀ j, j < rest.length →
        (content (k + 1 + j)).length = rest.getD j 0 := by
      intro j hj
      have := hlen (j + 1) (by simp only [List.length_cons]; omega)
      simpa [Nat.add_comm, Nat.add_assoc, Nat.add_left_comm] using this
    have hlohi : p * cl + a ≤ p * cl + b := by omega
    have hJ : joinFrom content k (ℓ :: rest)
        = content k ++ joinFrom content (k + 1) rest := rfl
    rw [hJ, sliceAbs_append _ _ _ _ _ hlohi, hcontent, ← ih (k + 1) (t + ℓ) hrest]
    by_cases hg : (t / cl ≤ p ∧ (p : Int) ≤ ((t : Int) + ℓ - 1).fdiv cl)
    · obtain ⟨hw, hov⟩ := (buildFrom_guard_iff hcl).mp hg
      have hov1 : t < p * cl + cl := by
        have hmul : (p + 1) * cl = p * cl + cl := by ring
        omega
      simp only [buildFrom, if_pos hg, List.cons_append, List.nil_append,
        List.filter_cons]
      by_cases hs : (a < (recordFor cl k t (t + ℓ) p).to'
          ∧ (recordFor cl k t (t + ℓ) p).from' < b)
      · rw [if_pos (by simpa using hs)]
        simp only [List.map_cons, List.flatten_cons]
        congr 1
        exact readClip_recordFor content hab hb hov1 hov hs.1 hs.2
      · rw [if_neg (by simpa using hs)]
        have h0 : min (p * cl + b) (t + ℓ) - max (p * cl + a) t = 0 := by
          simp only [recordFor] at hs
          rw [Classical.not_and_iff_or_not_not] at hs
          rcases hs with hs | hs <;> split_ifs at hs <;> omega
        rw [h0]
        simp
    · simp only [buildFrom, if_neg hg, List.nil_append]
      rw [buildFrom_guard_iff hcl] at hg
      have hmul : (p + 1) * cl = p * cl + cl := by ring
      have h0 : min (p * cl + b) (t + ℓ) - max (p * cl + a) t = 0 := by
        rw [Classical.not_and_iff_or_not_not] at hg
        omega
      rw [h0]
      simp

/-- If the absolute position `p*cl + a` lies inside the declared stream, some
overlap record of chunk `p` survives the range filter `[a, b)`. -/
theorem buildFrom_filter_exists (cl p a b : Nat) (hcl : 0 < cl) (hab : a < b)
    (hb : b ≤ cl) :
    ∀ (ls : List Nat) (k t : Nat), t ≤ p * cl + a → p * cl + a < t + ls.sum →
      ∃ r, r ∈ buildFrom cl k t ls p ∧ a < r.to' ∧ r.from' < b := by
  intro ls
  induction ls with
  | nil =>
    intro k t h1 h2
    exfalso
    simp only [List.sum_nil] at h2
    omega
  | cons ℓ rest ih =>
    intro k t h1 h2
    have hmul : (p + 1) * cl = p * cl + cl := by ring
    by_cases hc : p * cl + a < t + ℓ
    · have hg : t / cl ≤ p ∧ (p : Int) ≤ ((t : Int) + ℓ - 1).fdiv cl := by
        rw [buildFrom_guard_iff hcl]
        omega
      have hsurv : a < (recordFor cl k t (t + ℓ) p).to'
          ∧ (recordFor cl k t (t + ℓ) p).from' < b := by
        simp only [recordFor]
        constructor <;> split_ifs <;> omega
      exact ⟨recordFor cl k t (t + ℓ) p,
        by simp [buildFrom, if_pos hg], hsurv.1, hsurv.2⟩
    · have hnext : p * cl + a < (t + ℓ) + rest.sum := by
        simp only [List.sum_cons] at h2
        omega
      obtain ⟨r, hrm, hr⟩ := ih (k + 1) (t + ℓ) (by omega) hnext
      refine ⟨r, ?_, hr⟩
      simp only [buildFrom]
      exact List.mem_append_right _ hrm

/-- C2: for every open store, valid index, offset `o` and positive length
`n` with `o + n` within the chunk's length,
`get(i, {offset: o, length: n})` delivers exactly bytes `[o, o+n)` of the
buffer a full `get(i)` would deliver; in multi-file mode each surviving
overlap record is clipped to the requested range (`readClip`: `fileOffset`
raised by the amount `from` is raised, exactly `to - from` bytes read per
record), and the reads are concatenated in overlap-record order into one
buffer matching the requested range exactly (its length is `n`).  The
multi-file case is stated for a store whose overlap table and length come
from the constructor over declared lengths `lens` and whose logical files
have their declared sizes. -/
theorem get_partial_read
    (s : Store) (st : StoreState) (index o n : Nat)
    (hopen : st.closed = false) (hcl : 0 < s.chunkLength) (hn : 0 < n)
    (hrange : o + n ≤ s.localLen index)
    (hcase :
      ((s.files = none ∨ (st.chunks index).isSome = true)
        ∧ ((st.chunks index).getD []).length = s.localLen index)
      ∨ (∃ lens L, s.files = some lens ∧ st.chunks index = none
          ∧ s.length = some L ∧ lens.sum = L
          ∧ s.chunkMap = buildFrom s.chunkLength 0 0 lens
          ∧ index + 1 ≤ (L + s.chunkLength - 1) / s.chunkLength
          ∧ (∀ j, j < lens.length →
              (st.fileContents.getD j []).length = lens.getD j 0))) :
    ∃ B, (s.get st index none).events = [(.nullv, some B)]
      ∧ B.length = s.localLen index
      ∧ (s.get st index (some { offset := some o, length := some n })).events
          = [(.nullv, some ((B.drop o).take n))]
      ∧ ((B.drop o).take n).length = n := by
  have hpos : 0 < s.localLen index := localLen_pos s hcl index
  have hnne : n ≠ 0 := by omega
  rcases hcase with ⟨hmode, hclen⟩ | ⟨lens, L, hf, hchunk, hL, hsum, hmap, hvalid, hconts⟩
  · -- single-file read path
    have hlenn : ((((st.chunks index).getD []).drop o).take n).length = n := by
      simp only [List.length_take, List.length_drop, hclen]
      omega
    have hbuf : (if o ≠ 0 ∨ n ≠ s.localLen index
          then (((st.chunks index).getD []).drop o).take n
          else (st.chunks index).getD [])
        = (((st.chunks index).getD []).drop o).take n := by
      split_ifs with h
      · rfl
      · push_neg at h
        rw [h.1, h.2, List.drop_zero, ← hclen, List.take_length]
    rcases hmode with hmf | hmc
    · refine ⟨(st.chunks index).getD [], ?_, hclen, ?_, hlenn⟩
      · simp [Store.get, Store.getSingle, hopen, hmf, hclen,
          Nat.pos_iff_ne_zero.mp hpos]
      · simp [Store.get, Store.getSingle, hopen, hmf, hnne, hbuf, hlenn]
    · refine ⟨(st.chunks index).getD [], ?_, hclen, ?_, hlenn⟩
      · simp [Store.get, Store.getSingle, hopen, hmc, hclen,
          Nat.pos_iff_ne_zero.mp hpos]
      · simp [Store.get, Store.getSingle, hopen, hmc, hnne, hbuf, hlenn]
  · -- multi-file read path
    obtain ⟨hp, hle, hwin⟩ := localLen_facts s L hL hcl index hvalid
    have hconts0 : ∀ j, j < lens.length →
        ((fun j => (st.fileContents[j]?).getD []) (0 + j)).length
          = lens.getD j 0 := by
      intro j hj
      have h := hconts j hj
      rw [List.getD_eq_getElem?_getD] at h
      simpa using h
    have hJlen : (joinFrom (fun j => (st.fileContents[j]?).getD []) 0 lens).length
        = L := by
      rw [joinFrom_length _ lens 0 hconts0, hsum]
    have hmain0 := buildFrom_filter_read s.chunkLength index 0 (s.localLen index)
        hcl hpos hle (fun j => (st.fileContents[j]?).getD []) lens 0 0 hconts0
    have hmain1 := buildFrom_filter_read s.chunkLength index o (o + n)
        hcl (by omega) (by omega) (fun j => (st.fileContents[j]?).getD [])
        lens 0 0 hconts0
    rw [← hmap] at hmain0 hmain1
    simp only [Bool.decide_and] at hmain0 hmain1
    have hne0 : (s.chunkMap index) ≠ [] := by
      rw [hmap]
      refine buildFrom_ne_nil s.chunkLength hcl lens 0 0 index (Nat.zero_le _) ?_
      omega
    have hie : (s.chunkMap index).isEmpty = false := by
      simp only [List.isEmpty_eq_false]
      exact hne0
    have hsurv0 : ∃ r, r ∈ s.chunkMap index
        ∧ 0 < r.to' ∧ r.from' < s.localLen index := by
      rw [hmap]
      exact buildFrom_filter_exists s.chunkLength index 0 (s.localLen index)
        hcl hpos hle lens 0 0 (by omega) (by omega)
    have hsurvn : ∃ r, r ∈ s.chunkMap index ∧ o < r.to' ∧ r.from' < o + n := by
      rw [hmap]
      exact buildFrom_filter_exists s.chunkLength index o (o + n)
        hcl (by omega) (by omega) lens 0 0 (by omega) (by omega)
    have hB0 : sliceAbs (joinFrom (fun j => (st.fileContents[j]?).getD []) 0 lens) 0
        (index * s.chunkLength + 0) (index * s.chunkLength + s.localLen index)
        = ((joinFrom (fun j => (st.fileContents[j]?).getD []) 0 lens).drop
            (index * s.chunkLength)).take (s.localLen index) := by
      unfold sliceAbs
      have h1 : (index * s.chunkLength + 0) - 0 = index * s.chunkLength := by omega
      have h2 : (index * s.chunkLength + s.localLen index)
          - max (index * s.chunkLength + 0) 0 = s.localLen index := by omega
      rw [h1, h2]
    have hBn : sliceAbs (joinFrom (fun j => (st.fileContents[j]?).getD []) 0 lens) 0
        (index * s.chunkLength + o) (index * s.chunkLength + (o + n))
        = ((joinFrom (fun j => (st.fileContents[j]?).getD []) 0 lens).drop
            (index * s.chunkLength + o)).take n := by
      unfold sliceAbs
      have h1 : (index * s.chunkLength + o) - 0 = index * s.chunkLength + o := by
        omega
      have h2 : (index * s.chunkLength + (o + n))
          - max (index * s.chunkLength + o) 0 = n := by omega
      rw [h1, h2]
    rw [hB0] at hmain0
    rw [hBn] at hmain1
    have hrel : (((((joinFrom (fun j => (st.fileContents[j]?).getD []) 0 lens).drop
          (index * s.chunkLength)).take (s.localLen index)).drop o).take n)
        = ((joinFrom (fun j => (st.fileContents[j]?).getD []) 0 lens).drop
            (index * s.chunkLength + o)).take n := by
      rw [List.drop_take, List.drop_drop, List.take_take]
      congr 1
      omega
    have hlenn : (((joinFrom (fun j => (st.fileContents[j]?).getD []) 0 lens).drop
          (index * s.chunkLength + o)).take n).length = n := by
      simp only [List.length_take, List.length_drop, hJlen]
      omega
    refine ⟨((joinFrom (fun j => (st.fileContents[j]?).getD []) 0 lens).drop
        (index * s.chunkLength)).take (s.localLen index), ?_, ?_, ?_, ?_⟩
    · -- full read
      have hnall : ¬ ∀ r ∈ s.chunkMap index,
          0 < r.to' → s.localLen index ≤ r.from' := by
        obtain ⟨r, hm, h1, h2⟩ := hsurv0
        intro hall
        have := hall r hm h1
        omega
      simp [Store.get, hopen, hf, hchunk, hie, hpos.ne]
      rw [if_neg hnall]
      simp only [List.nil_append, List.cons.injEq, Prod.mk.injEq,
        Option.some.injEq, true_and, and_true]
      exact hmain0
    · simp only [List.length_take, List.length_drop, hJlen]
      omega
    · -- partial read
      have hnall : ¬ ∀ r ∈ s.chunkMap index, o < r.to' → o + n ≤ r.from' := by
        obtain ⟨r, hm, h1, h2⟩ := hsurvn
        intro hall
        have := hall r hm h1
        omega
      simp [Store.get, hopen, hf, hchunk, hie, hnne]
      rw [if_neg hnall]
      simp only [List.nil_append, List.cons.injEq, Prod.mk.injEq,
        Option.some.injEq, true_and, and_true]
      rw [hrel]
      exact hmain1
    · rw [hrel]
      exact hlenn

/-- Witness for C2: the multi-file store over declared lengths `[15, 15]`
(`chunkLength = 10`), reading chunk 1 with `{offset: 3, length: 4}` — a
range that straddles the boundary between the two logical files. -/
theorem get_partial_read_witness :
    ∃ B, (storeCC.get stateCC 1 none).events = [(.nullv, some B)]
      ∧ B.length = storeCC.localLen 1
      ∧ (storeCC.get stateCC 1 (some { offset := some 3, length := some 4 })).events
          = [(.nullv, some ((B.drop 3).take 4))]
      ∧ ((B.drop 3).take 4).length = 4 :=
  get_partial_read storeCC stateCC 1 3 4 rfl (by decide) (by decide) (by decide)
    (Or.inr ⟨[15, 15], 30, rfl, rfl, rfl, rfl, rfl, by decide, by decide⟩)
end WebFsChunkStore
